import Mathlib

/-!
The row transformer of sql-jekyll-migration (migrate.go).

A shallow embedding of `processRow` and of the library calls it makes, followed by the
properties of the row-to-document transformation.

Go strings are embedded as Lean strings, that is as sequences of Unicode code points: the
embedding covers the strings that are valid UTF-8, which is what the text columns of the
database hold. Go integers are embedded as unbounded integers; the only integer the program
compares is `date.Unix()`, whose sign is the same in both.
-/

namespace Migrate

/-! ## Data model -/

/-- Value to denote that an argument should be ignored. -/
def Ignore : String := "-"

/-- The struct frontMatter of migrate.go: a database column and the key its value is written
under in the front matter. -/
structure frontMatter where
  DbColumn : String
  JekyllKey : String
  deriving DecidableEq, Repr

/-- A time.Time value, as far as `Unix`, `Format` and `String` observe it: the instant
(`unix` seconds and `nsec` nanoseconds since 1970-01-01T00:00:00Z) and the zone in effect at
that instant in the location of the value (`offset` seconds east of UTC, abbreviation `zone`).
Values scanned from the database carry no monotonic clock reading. -/
structure Time where
  unix : Int
  nsec : Nat
  offset : Int
  zone : String
  deriving DecidableEq, Repr

/-- The dynamic values that `rows.Scan` stores into an `interface{}` destination: nil for SQL
NULL, or one of the driver value types. A float64 is carried as its shortest decimal text, the
text `%v` prints, since the embedding has no floating point. -/
inductive Value where
  | null
  | string (s : String)
  | int64 (n : Int)
  | float64 (text : String)
  | bool (b : Bool)
  | bytes (bs : List Nat)
  | time (t : Time)
  deriving DecidableEq, Repr

/-- The test `val == nil`. -/
def Value.isNil : Value → Bool
  | .null => true
  | _ => false

/-! ## The library calls of processRow -/

/-- The predicate unicode.IsSpace: the code points with the Unicode White_Space property. -/
def isSpace (c : Char) : Bool :=
  let n := c.toNat
  (9 ≤ n && n ≤ 13) || n == 0x20 || n == 0x85 || n == 0xA0 || n == 0x1680 ||
    (0x2000 ≤ n && n ≤ 0x200A) || n == 0x2028 || n == 0x2029 || n == 0x202F ||
    n == 0x205F || n == 0x3000

/-- The call strings.TrimSpace(s): s without its leading and trailing white space. -/
def TrimSpace (s : String) : String :=
  ⟨((s.data.dropWhile isSpace).reverse.dropWhile isSpace).reverse⟩

/-- One character of strings.Replace(s, old, new, -1) for a one-character `old`. -/
def replaceChar (old : Char) (new : String) (c : Char) : List Char :=
  if c = old then new.data else [c]

/-- Worker of `Replace` on the characters of the string. -/
def replaceChars (old : Char) (new : String) : List Char → List Char
  | [] => []
  | c :: cs => replaceChar old new c ++ replaceChars old new cs

/-- The call strings.Replace(s, old, new, -1) for a one-character `old`, the only form
migrate.go uses: every occurrence of `old` is replaced by `new`. -/
def Replace (s : String) (old : Char) (new : String) : String :=
  ⟨replaceChars old new s.data⟩

/-- The function unicode.ToLower on one code point. Beside the ASCII capitals, the two
code points of the Unicode case tables whose lower case is an ASCII letter are listed (U+0130
maps to i and U+212A to k). Every other entry of the table maps a code point outside ASCII to
a code point outside ASCII; these are left in place here, and FileNameSanitizer deletes them
in the step that follows the only call of strings.ToLower. -/
def toLowerRune (c : Char) : Char :=
  let n := c.toNat
  if 65 ≤ n ∧ n ≤ 90 then Char.ofNat (n + 32)
  else if n = 0x130 then 'i'
  else if n = 0x212A then 'k'
  else c

/-- The call strings.ToLower(s). -/
def ToLower (s : String) : String :=
  ⟨s.data.map toLowerRune⟩

/-- The character class of FileNameSanitizer, `[^A-Za-z0-9\-]`: true when the class matches
the character. -/
def sanitizerClass (c : Char) : Bool :=
  let n := c.toNat
  !((65 ≤ n && n ≤ 90) || (97 ≤ n && n ≤ 122) || (48 ≤ n && n ≤ 57) || n == 45)

/-- Worker of FileNameSanitizer.ReplaceAllString: the regular expression `[^A-Za-z0-9\-]+`
matches the maximal runs of characters of the class, and each run is replaced by one copy of
`repl`. The flag tells whether the previous character belongs to a run. -/
def replaceRuns (repl : List Char) : Bool → List Char → List Char
  | _, [] => []
  | inRun, c :: cs =>
    if sanitizerClass c then
      (if inRun then [] else repl) ++ replaceRuns repl true cs
    else
      c :: replaceRuns repl false cs

/-- The call FileNameSanitizer.ReplaceAllString(s, repl), with
FileNameSanitizer = regexp.MustCompile("[^A-Za-z0-9\\-]+"). -/
def FileNameSanitizer (s : String) (repl : String) : String :=
  ⟨replaceRuns repl.data false s.data⟩

/-- Decimal digits of `n`, padded with zeros on the left to `width` digits (appendInt of
package time, for a number that is not negative). -/
def padInt (n : Nat) (width : Nat) : String :=
  let ds := (Nat.toDigits 10 n)
  ⟨List.replicate (width - ds.length) '0' ++ ds⟩

/-- The function appendInt of package time: a minus sign for a negative number, then the
digits of its magnitude padded to `width`. -/
def appendInt (x : Int) (width : Nat) : String :=
  (if x < 0 then "-" else "") ++ padInt x.natAbs width

/-- Civil date (year, month, day) of a day number counted from 1970-01-01, in the proleptic
Gregorian calendar. -/
def civilFromDays (days : Int) : Int × Nat × Nat :=
  let z := days + 719468
  let era := z / 146097
  let doe := (z - era * 146097).toNat
  let yoe := (doe - doe / 1460 + doe / 36524 - doe / 146096) / 365
  let doy := doe - (365 * yoe + yoe / 4 - yoe / 100)
  let mp := (5 * doy + 2) / 153
  let d := doy - (153 * mp + 2) / 5 + 1
  let m := if mp < 10 then mp + 3 else mp - 9
  let y := (yoe : Int) + era * 400 + (if m ≤ 2 then 1 else 0)
  (y, m, d)

/-- The method t.Unix(): seconds elapsed since the Unix epoch. -/
def Time.Unix (t : Time) : Int := t.unix

/-- The call t.Format("2006-01-02"): year, month and day of the instant in the zone of the
value. -/
def Time.Format (t : Time) : String :=
  let ymd := civilFromDays ((t.unix + t.offset) / 86400)
  appendInt ymd.1 4 ++ "-" ++ padInt ymd.2.1 2 ++ "-" ++ padInt ymd.2.2 2

/-- The fractional seconds of the layout element `.999999999`: nothing for a whole second,
else a dot and the nine digits of the nanoseconds without their trailing zeros. -/
def fracSeconds (nsec : Nat) : String :=
  if nsec = 0 then ""
  else "." ++ ⟨((padInt nsec 9).data.reverse.dropWhile (fun c => c == '0')).reverse⟩

/-- The layout element `-0700`: sign, hours and minutes of the zone offset. Go divides
rounding toward zero. -/
def zoneOffset (offset : Int) : String :=
  let zone := Int.tdiv offset 60
  (if zone < 0 then "-" else "+") ++ padInt (zone.natAbs / 60) 2 ++ padInt (zone.natAbs % 60) 2

/-- The method t.String(), which `%v` prints for a time.Time: the layout
"2006-01-02 15:04:05.999999999 -0700 MST". The element MST prints the abbreviation of the
zone, or the numeric offset when the zone has no abbreviation. -/
def Time.render (t : Time) : String :=
  let secs := ((t.unix + t.offset) % 86400).toNat
  t.Format ++ " " ++ padInt (secs / 3600) 2 ++ ":" ++ padInt (secs % 3600 / 60) 2 ++ ":" ++
    padInt (secs % 60) 2 ++ fracSeconds t.nsec ++ " " ++ zoneOffset t.offset ++ " " ++
    (if t.zone = "" then zoneOffset t.offset else t.zone)

/-- The call fmt.Sprintf("%v", val). -/
def Sprint : Value → String
  | .null => "<nil>"
  | .string s => s
  | .int64 n => (if n < 0 then "-" else "") ++ Nat.repr n.natAbs
  | .float64 text => text
  | .bool b => if b then "true" else "false"
  | .bytes bs => "[" ++ " ".intercalate (bs.map Nat.repr) ++ "]"
  | .time t => t.render

/-- The call time.Unix(0, 0): the epoch instant. It is the local time zone that Go attaches
to it; processRow never formats this value, since its Unix() is 0. -/
def unixEpoch : Time := ⟨0, 0, 0, "Local"⟩

/-! ## processRow -/

/-- The local variables of processRow that the loop over the columns updates. -/
structure RowState where
  fileName : String
  contents : String
  contentBody : String
  date : Time
  deriving DecidableEq, Repr

/-- What one statement block of the loop body does: go on with a new state, execute
`return fileName, contents`, or panic. -/
inductive Step where
  | next (st : RowState)
  | ret (fileName contents : String)
  | panic
  deriving DecidableEq, Repr

/-- The steps of processRow that turn the trimmed value of the filename column into the
name of the file. -/
def fileNameOf (trimmed : String) : String :=
  let fileName := Replace trimmed ' ' "-"
  let fileName := ToLower fileName
  let fileName := FileNameSanitizer fileName ""
  fileName ++ ".md"

/-- The check for special columns of the loop body (the if / else if chain on `k`), for a
value that is not nil. The type assertion val.(time.Time) panics on any other type. -/
def special (fileNameKey contentKey dateKey : String) (k : String) (val : Value)
    (st : RowState) : Step :=
  if k = fileNameKey then
    let fileName := Sprint val
    let fileName := TrimSpace fileName
    if fileName.length = 0 then
      .ret "" ""
    else
      .next { st with fileName := fileNameOf fileName }
  else if k = contentKey then
    .next { st with contentBody := Sprint val }
  else if k = dateKey then
    match val with
    | .time t => .next { st with date := t }
    | _ => .panic
  else
    .next st

/-- The type switch of the loop body: a string is printed between double quotes with its
double quotes escaped, any other value as `%v` prints it. -/
def display : Value → String
  | .string s => "\"" ++ Replace s '\"' "\\\"" ++ "\""
  | val => Sprint val

/-- The statement contents = fmt.Sprintf("%v%v: %v \n", contents, f.JekyllKey, s). -/
def appendHeader (contents : String) (f : frontMatter) (val : Value) : String :=
  contents ++ f.JekyllKey ++ ": " ++ display val ++ " \n"

/-- The statements after the loop: the front matter is closed, the content body follows it,
and a date with a positive Unix() goes before the file name. -/
def finish (st : RowState) : String × String :=
  let contents := "---\n" ++ st.contents ++ "---\n" ++ st.contentBody
  let fileName :=
    if st.date.Unix > 0 then st.date.Format ++ "-" ++ st.fileName else st.fileName
  (fileName, contents)

/-- The loop `for i, f := range frontMatter` of processRow over the pairs (f, columns[i]),
followed by the statements after it. The result is none when processRow panics. -/
def rowLoop (fileNameKey contentKey dateKey : String) :
    List (frontMatter × Value) → RowState → Option (String × String)
  | [], st => some (finish st)
  | (f, val) :: rest, st =>
    if val.isNil then
      rowLoop fileNameKey contentKey dateKey rest st
    else
      match special fileNameKey contentKey dateKey f.DbColumn val st with
      | .panic => none
      | .ret fileName contents => some (fileName, contents)
      | .next st1 =>
        if f.JekyllKey = Ignore then
          rowLoop fileNameKey contentKey dateKey rest st1
        else
          rowLoop fileNameKey contentKey dateKey rest
            { st1 with contents := appendHeader st1.contents f val }

/-- The function processRow of migrate.go. The current row of the cursor is given by the
values of its columns. rows.Scan fails, and processRow panics through fail, unless the row
has one value per destination, that is per entry of frontMatter; then columns[i] is the value
of column i. The result is none when processRow panics, else the pair (fileName, contents). -/
def processRow (rows : List Value) (fileNameKey contentKey dateKey : String)
    (frontMatter : List frontMatter) : Option (String × String) :=
  if rows.length = frontMatter.length then
    rowLoop fileNameKey contentKey dateKey (frontMatter.zip rows) ⟨"", "", "", unixEpoch⟩
  else
    none

/-- The test of performMigration on the file name that processRow returns: when
`len(fileName) == 0` the row is skipped with a warning and no file is written. -/
def skipsRow (fileName : String) : Bool :=
  fileName.length = 0

/-! ## The vocabulary of the specification -/

/-- The values of the row that are not null and stand in a column whose name satisfies `p`,
in the order of the column mapping. -/
def valuesAt (p : String → Bool) (entries : List (frontMatter × Value)) : List Value :=
  (entries.filter (fun e => p e.1.DbColumn && !e.2.isNil)).map Prod.snd

/-- A value whose text is empty once the surrounding white space is trimmed. -/
def isBlank (v : Value) : Bool :=
  (TrimSpace (Sprint v)).length = 0

/-- The header line of a mapping entry and its value. -/
def headerLine (e : frontMatter × Value) : String :=
  e.1.JekyllKey ++ ": " ++ display e.2 ++ " \n"

/-- The entries that have a header line: the value is not null and the output key is not the
sentinel. -/
def emitsHeader (e : frontMatter × Value) : Bool :=
  !e.2.isNil && !decide (e.1.JekyllKey = Ignore)

/-- Concatenation of a list of strings with nothing between them. -/
def concat : List String → String
  | [] => ""
  | s :: ss => s ++ concat ss

/-- The header lines of the entries, in mapping order, concatenated. -/
def headerBlock (entries : List (frontMatter × Value)) : String :=
  concat ((entries.filter emitsHeader).map headerLine)

/-- The last element of a list of values under `f`, or `d` for the empty list. -/
def lastOr {β : Type} (f : Value → β) (vs : List Value) (d : β) : β :=
  (vs.getLast?.map f).getD d

/-- The timestamp held by a value, the epoch for a value of another type. -/
def Value.asTime : Value → Time
  | .time t => t
  | _ => unixEpoch

/-- The statements of processRow between the trim and the suffix: sanitize(x) is the file
name pipeline without ".md". -/
def sanitize (x : String) : String :=
  FileNameSanitizer (ToLower (Replace x ' ' "-")) ""

/-- An ASCII letter, a digit or a hyphen. -/
def isAlnumHyphen (c : Char) : Bool :=
  let n := c.toNat
  (65 ≤ n && n ≤ 90) || (97 ≤ n && n ≤ 122) || (48 ≤ n && n ≤ 57) || n == 45

/-- A lowercase ASCII letter, a digit or a hyphen. -/
def isLowerAlnumHyphen (c : Char) : Bool :=
  let n := c.toNat
  (97 ≤ n && n ≤ 122) || (48 ≤ n && n ≤ 57) || n == 45

/-- The sanitization in the words of the specification: every space replaced by a hyphen,
then lowercased, then every character that is not an ASCII letter, digit or hyphen deleted. -/
def specSanitize (x : String) : String :=
  ⟨((x.data.map (fun c => if c = ' ' then '-' else c)).map toLowerRune).filter isAlnumHyphen⟩

/-- The local variables of processRow after a loop that ran to its end, read off the row:
each role variable holds what the last value of its role gave, and the contents hold the
header lines. -/
def captured (fk ck dk : String) (entries : List (frontMatter × Value)) (st : RowState) :
    RowState where
  fileName := lastOr (fun v => fileNameOf (TrimSpace (Sprint v)))
    (valuesAt (fun k => decide (k = fk)) entries) st.fileName
  contents := st.contents ++ headerBlock entries
  contentBody := lastOr Sprint
    (valuesAt (fun k => !decide (k = fk) && decide (k = ck)) entries) st.contentBody
  date := lastOr Value.asTime
    (valuesAt (fun k => !decide (k = fk) && !decide (k = ck) && decide (k = dk)) entries) st.date

/-- How the loop body ends the row at an entry, if it does: `some none` for a panic,
`some (some r)` for the statement `return` with the pair r, `none` when the loop goes on.
The state the loop is in has no part in it. -/
def stops (fk ck dk : String) (e : frontMatter × Value) : Option (Option (String × String)) :=
  if e.2.isNil then none
  else
    match special fk ck dk e.1.DbColumn e.2 ⟨"", "", "", unixEpoch⟩ with
    | .panic => some none
    | .ret fileName contents => some (some (fileName, contents))
    | .next _ => none

/-- The trailing content of the row: the text of the last value that is not null in a content
column that is not the filename column, or the empty string. -/
def contentText (fk ck : String) (entries : List (frontMatter × Value)) : String :=
  lastOr Sprint (valuesAt (fun k => !decide (k = fk) && decide (k = ck)) entries) ""

/-- The date of the row: the last timestamp in a date column that is neither the filename
column nor the content column, or the epoch. -/
def capturedDate (fk ck dk : String) (entries : List (frontMatter × Value)) : Time :=
  lastOr Value.asTime
    (valuesAt (fun k => !decide (k = fk) && !decide (k = ck) && decide (k = dk)) entries)
    unixEpoch

/-- A timestamp value. -/
def Value.isTime : Value → Bool
  | .time _ => true
  | _ => false

/-- Every value of a date column is a timestamp or null. -/
def DatesTyped (dk : String) (entries : List (frontMatter × Value)) : Prop :=
  ∀ e ∈ entries, e.1.DbColumn = dk → e.2 = .null ∨ ∃ t, e.2 = .time t

/-! ## Lemmas on the vocabulary -/

theorem lastOr_nil {β : Type} (f : Value → β) (d : β) : lastOr f [] d = d := rfl

theorem lastOr_cons {β : Type} (f : Value → β) (v : Value) (vs : List Value) (d : β) :
    lastOr f (v :: vs) d = lastOr f vs (f v) := by
  simp only [lastOr, List.getLast?_cons]
  cases vs.getLast? <;> rfl

theorem valuesAt_nil (p : String → Bool) : valuesAt p [] = [] := rfl

theorem valuesAt_cons (p : String → Bool) (f : frontMatter) (v : Value)
    (rest : List (frontMatter × Value)) :
    valuesAt p ((f, v) :: rest) =
      if p f.DbColumn && !v.isNil then v :: valuesAt p rest else valuesAt p rest := by
  unfold valuesAt
  rw [List.filter_cons]
  split <;> rfl

theorem headerBlock_nil : headerBlock [] = "" := rfl

theorem headerBlock_cons (e : frontMatter × Value) (rest : List (frontMatter × Value)) :
    headerBlock (e :: rest) = (if emitsHeader e then headerLine e else "") ++ headerBlock rest := by
  unfold headerBlock
  rw [List.filter_cons]
  split
  · rfl
  · rw [String.empty_append]

/-! ## The file name pipeline -/

theorem toNat_ofNat_small (m : Nat) (h : m < 0xd800) : (Char.ofNat m).toNat = m := by
  have hv : m.isValidChar := Or.inl h
  simp only [Char.ofNat, hv, dif_pos, Char.ofNatAux, Char.toNat]
  show (UInt32.ofNatCore m _).toNat = m
  rfl

theorem replaceRuns_nil_eq_filter (l : List Char) :
    ∀ b : Bool, replaceRuns [] b l = l.filter (fun c => !sanitizerClass c) := by
  induction l with
  | nil => intro b; rfl
  | cons c cs ih =>
    intro b
    unfold replaceRuns
    by_cases h : sanitizerClass c = true
    · simp [h, ih]
    · simp [h, ih]

theorem replaceChars_space (l : List Char) :
    replaceChars ' ' "-" l = l.map (fun c => if c = ' ' then '-' else c) := by
  induction l with
  | nil => rfl
  | cons c cs ih =>
    unfold replaceChars
    rw [ih]
    by_cases h : c = ' '
    · simp [replaceChar, h]
    · simp [replaceChar, h]

theorem sanitizerClass_eq (c : Char) : (!sanitizerClass c) = isAlnumHyphen c := by
  simp [sanitizerClass, isAlnumHyphen]

theorem sanitize_eq_specSanitize (x : String) : sanitize x = specSanitize x := by
  simp only [sanitize, specSanitize, FileNameSanitizer, ToLower, Replace,
    replaceRuns_nil_eq_filter, replaceChars_space]
  congr 1
  apply List.filter_congr
  intro c _
  exact sanitizerClass_eq c

theorem toLowerRune_not_upper (c : Char) :
    ¬ (65 ≤ (toLowerRune c).toNat ∧ (toLowerRune c).toNat ≤ 90) := by
  unfold toLowerRune
  simp only
  split
  · rename_i h
    rw [toNat_ofNat_small _ (by omega)]
    omega
  · split
    · decide
    · split
      · decide
      · assumption

theorem lower_of_alnum_toLowerRune (c : Char) (h : isAlnumHyphen (toLowerRune c) = true) :
    isLowerAlnumHyphen (toLowerRune c) = true := by
  have hu := toLowerRune_not_upper c
  simp only [isAlnumHyphen, isLowerAlnumHyphen, Bool.or_eq_true, Bool.and_eq_true,
    decide_eq_true_eq, beq_iff_eq] at h ⊢
  rcases h with ((h | h) | h) | h
  · exact absurd h hu
  · exact Or.inl (Or.inl h)
  · exact Or.inl (Or.inr h)
  · exact Or.inr h

theorem specSanitize_chars (x : String) :
    ∀ c ∈ (specSanitize x).data, isLowerAlnumHyphen c = true := by
  intro c hc
  simp only [specSanitize, List.mem_filter, List.mem_map] at hc
  obtain ⟨⟨a, _, rfl⟩, hk⟩ := hc
  exact lower_of_alnum_toLowerRune a hk

theorem lower_fixed (c : Char) (h : isLowerAlnumHyphen c = true) :
    c ≠ ' ' ∧ toLowerRune c = c ∧ isAlnumHyphen c = true := by
  simp only [isLowerAlnumHyphen, Bool.or_eq_true, Bool.and_eq_true,
    decide_eq_true_eq, beq_iff_eq] at h
  refine ⟨?_, ?_, ?_⟩
  · intro hc
    subst hc
    revert h
    decide
  · unfold toLowerRune
    simp only
    rw [if_neg (by omega), if_neg (by omega), if_neg (by omega)]
  · simp only [isAlnumHyphen, Bool.or_eq_true, Bool.and_eq_true,
      decide_eq_true_eq, beq_iff_eq]
    omega

theorem specSanitize_fixed (l : List Char) (h : ∀ c ∈ l, isLowerAlnumHyphen c = true) :
    specSanitize ⟨l⟩ = ⟨l⟩ := by
  simp only [specSanitize]
  congr 1
  induction l with
  | nil => rfl
  | cons c cs ih =>
    have hc := lower_fixed c (h c (List.mem_cons_self _ _))
    have := ih (fun d hd => h d (List.mem_cons_of_mem _ hd))
    simp only [List.map_cons, if_neg hc.1, hc.2.1, List.filter_cons, hc.2.2, if_true, this]

theorem sanitize_idem (x : String) : sanitize (sanitize x) = sanitize x := by
  rw [sanitize_eq_specSanitize x, sanitize_eq_specSanitize]
  exact specSanitize_fixed _ (specSanitize_chars x)

theorem fileNameOf_eq (t : String) : fileNameOf t = sanitize t ++ ".md" := rfl

/-! ## The dates of some instants -/

/-- The date and the text of known instants: a leap day, the second before the epoch, a zone
west of Greenwich without abbreviation, and a fraction of a second in a named zone. -/
theorem format_examples :
    Time.Format ⟨951782400, 0, 0, "UTC"⟩ = "2000-02-29" ∧
    Time.Format ⟨-1, 0, 0, "UTC"⟩ = "1969-12-31" ∧
    Time.render ⟨1619827200, 0, -3600, ""⟩ = "2021-04-30 23:00:00 -0100 -0100" ∧
    Time.render ⟨1619827200, 500000000, 7200, "CEST"⟩ = "2021-05-01 02:00:00.5 +0200 CEST" := by
  decide

/-! ## The loop without assumption on the row -/

theorem rowLoop_total (fk ck dk : String) (entries : List (frontMatter × Value)) :
    ∀ st : RowState,
      rowLoop fk ck dk entries st =
        match entries.findSome? (stops fk ck dk) with
        | some r => r
        | none => some (finish (captured fk ck dk entries st)) := by
  induction entries with
  | nil =>
    intro st
    simp [rowLoop, valuesAt_nil, captured, lastOr_nil, headerBlock_nil, String.append_empty]
  | cons e rest ih =>
    intro st
    obtain ⟨f, v⟩ := e
    unfold rowLoop
    rw [List.findSome?_cons]
    by_cases hnil : v.isNil = true
    · simp only [hnil, if_true, stops]
      rw [ih st]
      simp [valuesAt_cons, hnil, captured, headerBlock_cons, emitsHeader, String.empty_append]
    · have hnil1 : v.isNil = false := by simpa using hnil
      have hemit : emitsHeader (f, v) = !decide (f.JekyllKey = Ignore) := by
        simp [emitsHeader, hnil1]
      simp only [hnil1, Bool.false_eq_true, if_false, stops]
      by_cases hfk : f.DbColumn = fk
      · by_cases hblank : (TrimSpace (Sprint v)).length = 0
        · simp [special, hfk, hblank]
        · by_cases hign : f.JekyllKey = Ignore
          · simp only [special, hfk, hblank, if_true, if_false, hign]
            rw [ih _]
            simp [valuesAt_cons, hnil1, captured, lastOr_cons,
              headerBlock_cons, hemit, hign, String.empty_append, hfk]
          · simp only [special, hfk, hblank, if_true, if_false, hign]
            rw [ih _]
            simp [valuesAt_cons, hnil1, captured, lastOr_cons,
              headerBlock_cons, hemit, hign, String.append_assoc, hfk, appendHeader, headerLine]
      · by_cases hck : f.DbColumn = ck
        · have hfk1 : ¬ ck = fk := hck ▸ hfk
          by_cases hign : f.JekyllKey = Ignore
          · simp only [special, hfk, hfk1, hck, if_true, if_false, hign]
            rw [ih _]
            simp [valuesAt_cons, hnil1, captured, lastOr_cons,
              headerBlock_cons, hemit, hign, String.empty_append, hfk, hfk1, hck]
          · simp only [special, hfk, hfk1, hck, if_true, if_false, hign]
            rw [ih _]
            simp [valuesAt_cons, hnil1, captured, lastOr_cons,
              headerBlock_cons, hemit, hign, String.append_assoc, hfk, hfk1, hck, appendHeader,
              headerLine]
        · by_cases hdk : f.DbColumn = dk
          · have hfk1 : ¬ dk = fk := hdk ▸ hfk
            have hck1 : ¬ dk = ck := hdk ▸ hck
            by_cases hign : f.JekyllKey = Ignore
            · cases v <;>
                first
                | exact absurd rfl hnil
                | (simp only [special, hfk, hck, hfk1, hck1, hdk, if_true, if_false, hign]
                   rw [ih _]
                   simp [valuesAt_cons, Value.isNil, captured, lastOr_cons,
                    headerBlock_cons, hemit, hign, String.empty_append, hfk, hck, hdk,
                    hfk1, hck1, Value.asTime])
                | simp only [special, hfk, hck, hfk1, hck1, hdk, if_true, if_false, hign]
            · cases v <;>
                first
                | exact absurd rfl hnil
                | (simp only [special, hfk, hck, hfk1, hck1, hdk, if_true, if_false, hign]
                   rw [ih _]
                   simp [valuesAt_cons, Value.isNil, captured, lastOr_cons,
                    headerBlock_cons, hemit, hign, String.append_assoc, hfk, hck, hdk,
                    hfk1, hck1, appendHeader, headerLine, Value.asTime])
                | simp only [special, hfk, hck, hfk1, hck1, hdk, if_true, if_false, hign]
          · by_cases hign : f.JekyllKey = Ignore
            · simp only [special, hfk, hck, hdk, if_true, if_false, hign]
              rw [ih _]
              simp [valuesAt_cons, hnil1, captured, lastOr_cons,
                headerBlock_cons, hemit, hign, String.empty_append, hfk, hck, hdk]
            · simp only [special, hfk, hck, hdk, if_true, if_false, hign]
              rw [ih _]
              simp [valuesAt_cons, hnil1, captured, lastOr_cons,
                headerBlock_cons, hemit, hign, String.append_assoc, hfk, hck, hdk,
                appendHeader, headerLine]

/-! ## Where the loop stops -/

theorem isNil_eq_false_iff (v : Value) : v.isNil = false ↔ v ≠ Value.null := by
  cases v <;> simp [Value.isNil]

theorem stops_some_some (fk ck dk : String) (e : frontMatter × Value) (r : String × String)
    (h : stops fk ck dk e = some (some r)) :
    r = ("", "") ∧ e.2.isNil = false ∧ e.1.DbColumn = fk ∧ isBlank e.2 = true := by
  obtain ⟨f, v⟩ := e
  unfold stops special at h
  by_cases hnil : v.isNil = true
  · simp [hnil] at h
  · by_cases hfk : f.DbColumn = fk
    · by_cases hb : (TrimSpace (Sprint v)).length = 0
      · simp [hnil, hfk, hb] at h
        simp [← h, hfk, isBlank, hb, hnil]
      · simp [hnil, hfk, hb] at h
    · by_cases hck : f.DbColumn = ck
      · have hfk1 : ¬ ck = fk := hck ▸ hfk
        simp [hnil, hfk, hfk1, hck] at h
      · by_cases hdk : f.DbColumn = dk
        · have hfk1 : ¬ dk = fk := hdk ▸ hfk
          have hck1 : ¬ dk = ck := hdk ▸ hck
          cases v <;> simp [hfk, hck, hfk1, hck1, hdk, Value.isNil] at h
        · simp [hnil, hfk, hck, hdk] at h

theorem stops_some_none (fk ck dk : String) (e : frontMatter × Value)
    (h : stops fk ck dk e = some none) :
    e.1.DbColumn = dk ∧ e.2 ≠ Value.null ∧ ∀ t, e.2 ≠ Value.time t := by
  obtain ⟨f, v⟩ := e
  unfold stops special at h
  by_cases hnil : v.isNil = true
  · simp [hnil] at h
  · by_cases hfk : f.DbColumn = fk
    · by_cases hb : (TrimSpace (Sprint v)).length = 0
      · simp [hnil, hfk, hb] at h
      · simp [hnil, hfk, hb] at h
    · by_cases hck : f.DbColumn = ck
      · have hfk1 : ¬ ck = fk := hck ▸ hfk
        simp [hnil, hfk, hfk1, hck] at h
      · by_cases hdk : f.DbColumn = dk
        · have hfk1 : ¬ dk = fk := hdk ▸ hfk
          have hck1 : ¬ dk = ck := hdk ▸ hck
          cases v <;> simp [hfk, hck, hfk1, hck1, hdk, Value.isNil] at h ⊢
        · simp [hnil, hfk, hck, hdk] at h

theorem stops_blank (fk ck dk : String) (e : frontMatter × Value)
    (hnil : e.2.isNil = false) (hfk : e.1.DbColumn = fk) (hb : isBlank e.2 = true) :
    stops fk ck dk e = some (some ("", "")) := by
  obtain ⟨f, v⟩ := e
  simp only [isBlank, decide_eq_true_eq] at hb
  simp only at hnil hfk
  simp [stops, special, hnil, hfk, hb]

theorem mem_valuesAt (p : String → Bool) (entries : List (frontMatter × Value)) (v : Value) :
    v ∈ valuesAt p entries ↔ ∃ e ∈ entries, p e.1.DbColumn = true ∧ e.2.isNil = false ∧ e.2 = v := by
  simp only [valuesAt, List.mem_map, List.mem_filter, Bool.and_eq_true, Bool.not_eq_true']
  constructor
  · rintro ⟨e, ⟨he, hp, hn⟩, rfl⟩
    exact ⟨e, he, hp, hn, rfl⟩
  · rintro ⟨e, he, hp, hn, rfl⟩
    exact ⟨e, ⟨he, hp, hn⟩, rfl⟩

/-- A row whose date values are timestamps or null and whose file name values are not blank
runs the loop to its end. -/
theorem findSome_stops_none (fk ck dk : String) (entries : List (frontMatter × Value))
    (htyped : DatesTyped dk entries)
    (hnb : ∀ w ∈ valuesAt (fun k => decide (k = fk)) entries, isBlank w = false) :
    entries.findSome? (stops fk ck dk) = none := by
  rw [List.findSome?_eq_none_iff]
  intro e he
  cases hs : stops fk ck dk e with
  | none => rfl
  | some r =>
    exfalso
    cases r with
    | none =>
      obtain ⟨h1, h2, h3⟩ := stops_some_none fk ck dk e hs
      rcases htyped e he h1 with h | ⟨t, h⟩
      · exact h2 h
      · exact h3 t h
    | some r =>
      obtain ⟨_, h2, h3, h4⟩ := stops_some_some fk ck dk e r hs
      have hm : e.2 ∈ valuesAt (fun k => decide (k = fk)) entries :=
        (mem_valuesAt _ _ _).2 ⟨e, he, by simpa using h3, h2, rfl⟩
      rw [hnb _ hm] at h4
      exact Bool.noConfusion h4

/-- The loop of a row that comes back with a pair other than the pair of empty strings ran
to its end. -/
theorem findSome_stops_none_of_result (fk ck dk : String)
    (entries : List (frontMatter × Value)) (st : RowState) (r : String × String)
    (h : rowLoop fk ck dk entries st = some r) (hr : r ≠ ("", "")) :
    entries.findSome? (stops fk ck dk) = none := by
  rw [rowLoop_total] at h
  cases hs : entries.findSome? (stops fk ck dk) with
  | none => rfl
  | some q =>
    exfalso
    rw [hs] at h
    simp only at h
    obtain ⟨e, _, he⟩ := List.exists_of_findSome?_eq_some hs
    rw [h] at he
    exact hr (stops_some_some fk ck dk e r he).1

theorem rowLoop_of_none (fk ck dk : String) (entries : List (frontMatter × Value))
    (st : RowState) (h : entries.findSome? (stops fk ck dk) = none) :
    rowLoop fk ck dk entries st = some (finish (captured fk ck dk entries st)) := by
  rw [rowLoop_total, h]

theorem processRow_zip (rows : List Value) (fk ck dk : String) (fm : List frontMatter)
    (hlen : rows.length = fm.length) :
    processRow rows fk ck dk fm = rowLoop fk ck dk (fm.zip rows) ⟨"", "", "", unixEpoch⟩ := by
  simp [processRow, hlen]

theorem processRow_length (rows : List Value) (fk ck dk : String) (fm : List frontMatter)
    (r : String × String) (h : processRow rows fk ck dk fm = some r) :
    rows.length = fm.length := by
  by_contra hne
  simp [processRow, hne] at h

/-! ## Lists of values and header blocks -/

theorem datesTyped_iff (dk : String) (entries : List (frontMatter × Value)) :
    DatesTyped dk entries ↔
      ∀ e ∈ entries, e.1.DbColumn = dk → (e.2.isNil || e.2.isTime) = true := by
  unfold DatesTyped
  constructor
  · intro h e he hk
    rcases h e he hk with hv | ⟨t, hv⟩
    · rw [hv]; rfl
    · rw [hv]; rfl
  · intro h e he hk
    have := h e he hk
    obtain ⟨f, v⟩ := e
    cases v <;> simp [Value.isNil, Value.isTime] at this ⊢

theorem valuesAt_congr (p q : String → Bool) (entries : List (frontMatter × Value))
    (h : ∀ k, p k = q k) : valuesAt p entries = valuesAt q entries := by
  have hpq : p = q := funext h
  rw [hpq]

theorem valuesAt_eq_nil (p : String → Bool) (entries : List (frontMatter × Value))
    (h : ∀ e ∈ entries, p e.1.DbColumn = true → e.2 = Value.null) : valuesAt p entries = [] := by
  rw [List.eq_nil_iff_forall_not_mem]
  intro v hv
  obtain ⟨e, he, hp, hn, _⟩ := (mem_valuesAt p entries v).1 hv
  rw [h e he hp] at hn
  exact Bool.noConfusion hn

theorem valuesAt_append (p : String → Bool) (l1 l2 : List (frontMatter × Value)) :
    valuesAt p (l1 ++ l2) = valuesAt p l1 ++ valuesAt p l2 := by
  simp [valuesAt]

theorem concat_append (l1 l2 : List String) : concat (l1 ++ l2) = concat l1 ++ concat l2 := by
  induction l1 with
  | nil => simp [concat, String.empty_append]
  | cons s ss ih => simp [concat, ih, String.append_assoc]

theorem headerBlock_append (l1 l2 : List (frontMatter × Value)) :
    headerBlock (l1 ++ l2) = headerBlock l1 ++ headerBlock l2 := by
  simp [headerBlock, concat_append]

theorem lastOr_of_getLast {β : Type} (f : Value → β) (vs : List Value) (d : β) (v : Value)
    (h : vs.getLast? = some v) : lastOr f vs d = f v := by
  simp [lastOr, h]

/-- After the replacement of every double quote by a backslash and a double quote, a
backslash stands before every double quote. -/
theorem replaceChars_quote (l : List Char) :
    ∀ before after, replaceChars '\"' "\\\"" l = before ++ '\"' :: after →
      ∃ b1, before = b1 ++ ['\\'] := by
  induction l with
  | nil =>
    intro before after h
    simp [replaceChars] at h
  | cons c cs ih =>
    intro before after h
    unfold replaceChars replaceChar at h
    by_cases hc : c = '\"'
    · rw [if_pos hc] at h
      change '\\' :: '\"' :: replaceChars '\"' "\\\"" cs = before ++ '\"' :: after at h
      match before, h with
      | [], h => simp at h
      | [x], h =>
        simp only [List.cons_append, List.nil_append, List.cons.injEq] at h
        exact ⟨[], by rw [← h.1]; rfl⟩
      | x :: y :: rest, h =>
        simp only [List.cons_append, List.cons.injEq] at h
        obtain ⟨b1, hb⟩ := ih rest after h.2.2
        exact ⟨x :: y :: b1, by simp [hb]⟩
    · rw [if_neg hc] at h
      match before, h with
      | [], h =>
        simp only [List.nil_append, List.singleton_append, List.cons.injEq] at h
        exact absurd h.1 hc
      | x :: rest, h =>
        simp only [List.cons_append, List.singleton_append, List.cons.injEq] at h
        obtain ⟨b1, hb⟩ := ih rest after h.2
        exact ⟨x :: b1, by simp [hb]⟩

/-! ## The result of processRow on a row whose loop runs to its end -/

theorem processRow_of_none (rows : List Value) (fk ck dk : String) (fm : List frontMatter)
    (hlen : rows.length = fm.length)
    (h : (fm.zip rows).findSome? (stops fk ck dk) = none) :
    processRow rows fk ck dk fm =
      some (if (capturedDate fk ck dk (fm.zip rows)).Unix > 0 then
              (capturedDate fk ck dk (fm.zip rows)).Format ++ "-" ++
                lastOr (fun v => fileNameOf (TrimSpace (Sprint v)))
                  (valuesAt (fun k => decide (k = fk)) (fm.zip rows)) ""
            else
              lastOr (fun v => fileNameOf (TrimSpace (Sprint v)))
                (valuesAt (fun k => decide (k = fk)) (fm.zip rows)) "",
            "---\n" ++ headerBlock (fm.zip rows) ++ "---\n" ++ contentText fk ck (fm.zip rows)) := by
  rw [processRow_zip rows fk ck dk fm hlen, rowLoop_of_none fk ck dk _ _ h]
  simp only [finish, captured, capturedDate, contentText, String.empty_append]

theorem capturedDate_eq (fk ck dk : String) (entries : List (frontMatter × Value))
    (hfk : dk ≠ fk) (hck : dk ≠ ck) :
    capturedDate fk ck dk entries =
      lastOr Value.asTime (valuesAt (fun k => decide (k = dk)) entries) unixEpoch := by
  unfold capturedDate
  rw [valuesAt_congr _ (fun k => decide (k = dk)) entries]
  intro k
  by_cases h : k = dk
  · subst h
    simp [hfk, hck]
  · simp [h]

theorem contentText_eq (fk ck : String) (entries : List (frontMatter × Value)) :
    contentText fk ck entries =
      if ck = fk then "" else lastOr Sprint (valuesAt (fun k => decide (k = ck)) entries) "" := by
  unfold contentText
  by_cases h : ck = fk
  · rw [if_pos h, valuesAt_eq_nil]
    · rfl
    · intro e _ hp
      subst h
      simp at hp
  · rw [if_neg h, valuesAt_congr _ (fun k => decide (k = ck)) entries]
    intro k
    by_cases hk : k = ck
    · subst hk
      simp [h]
    · simp [hk]

theorem processRow_body (rows : List Value) (fk ck dk : String) (fm : List frontMatter)
    (fn body : String) (hrun : processRow rows fk ck dk fm = some (fn, body))
    (hstop : (fm.zip rows).findSome? (stops fk ck dk) = none) :
    body = "---\n" ++ headerBlock (fm.zip rows) ++ "---\n" ++ contentText fk ck (fm.zip rows) := by
  rw [processRow_of_none rows fk ck dk fm (processRow_length _ _ _ _ _ _ hrun) hstop] at hrun
  exact (congrArg Prod.snd (Option.some.inj hrun)).symm

theorem processRow_stops_none (rows : List Value) (fk ck dk : String) (fm : List frontMatter)
    (r : String × String) (hrun : processRow rows fk ck dk fm = some r) (hr : r ≠ ("", "")) :
    (fm.zip rows).findSome? (stops fk ck dk) = none := by
  rw [processRow_zip _ _ _ _ _ (processRow_length _ _ _ _ _ _ hrun)] at hrun
  exact findSome_stops_none_of_result fk ck dk _ _ r hrun hr

theorem processRow_stops_none_of_nonblank (rows : List Value) (fk ck dk : String)
    (fm : List frontMatter) (r : String × String)
    (hrun : processRow rows fk ck dk fm = some r)
    (hnb : ∀ w ∈ valuesAt (fun k => decide (k = fk)) (fm.zip rows), isBlank w = false) :
    (fm.zip rows).findSome? (stops fk ck dk) = none := by
  cases hf : (fm.zip rows).findSome? (stops fk ck dk) with
  | none => rfl
  | some q =>
    exfalso
    obtain ⟨e, he, hs⟩ := List.exists_of_findSome?_eq_some hf
    rw [processRow_zip _ _ _ _ _ (processRow_length _ _ _ _ _ _ hrun), rowLoop_total, hf] at hrun
    dsimp only at hrun
    rw [hrun] at hs
    obtain ⟨_, h2, h3, h4⟩ := stops_some_some fk ck dk e r hs
    have hm : e.2 ∈ valuesAt (fun k => decide (k = fk)) (fm.zip rows) :=
      (mem_valuesAt _ _ _).2 ⟨e, he, by simpa using h3, h2, rfl⟩
    rw [hnb _ hm] at h4
    exact Bool.noConfusion h4

theorem skipsRow_eq_false (fn : String) (h : skipsRow fn = false) : fn ≠ "" := by
  intro hfn
  subst hfn
  exact Bool.noConfusion h

theorem stops_key (fk ck dk col k1 k2 : String) (v : Value) :
    stops fk ck dk (⟨col, k1⟩, v) = stops fk ck dk (⟨col, k2⟩, v) := rfl

theorem findSome_stops_key (fk ck dk col k1 k2 : String) (v : Value)
    (l1 l2 : List (frontMatter × Value)) :
    (l1 ++ (⟨col, k1⟩, v) :: l2).findSome? (stops fk ck dk) =
      (l1 ++ (⟨col, k2⟩, v) :: l2).findSome? (stops fk ck dk) := by
  rw [List.findSome?_append, List.findSome?_append, List.findSome?_cons, List.findSome?_cons,
    stops_key fk ck dk col k1 k2 v]

theorem valuesAt_key (p : String → Bool) (col k1 k2 : String) (v : Value)
    (l1 l2 : List (frontMatter × Value)) :
    valuesAt p (l1 ++ (⟨col, k1⟩, v) :: l2) = valuesAt p (l1 ++ (⟨col, k2⟩, v) :: l2) := by
  rw [valuesAt_append, valuesAt_append, valuesAt_cons, valuesAt_cons]

theorem zip_split (fpre fpost : List frontMatter) (rpre rpost : List Value) (f : frontMatter)
    (v : Value) (hpre : rpre.length = fpre.length) :
    (fpre ++ f :: fpost).zip (rpre ++ v :: rpost) =
      fpre.zip rpre ++ (f, v) :: fpost.zip rpost := by
  rw [List.zip_append hpre.symm, List.zip_cons_cons]

theorem headerBlock_split (l1 l2 : List (frontMatter × Value)) (e : frontMatter × Value) :
    headerBlock (l1 ++ e :: l2) =
      headerBlock l1 ++ (if emitsHeader e then headerLine e else "") ++ headerBlock l2 := by
  rw [headerBlock_append, headerBlock_cons, String.append_assoc]

/-! ## The claims -/

/-- C1, counterexample. On the end-to-end example of the specification processRow does not
return the body "---\ntitle: \"Hello World!\"\n---\nText." that the claim gives. -/
theorem C1_counterexample :
    processRow
        [.int64 7, .string "Hello World!", .time ⟨1619827200, 0, 0, "UTC"⟩, .string "Text."]
        "title" "body" "published"
        [⟨"id", "-"⟩, ⟨"title", "title"⟩, ⟨"published", "date"⟩, ⟨"body", "-"⟩]
      ≠ some ("2021-05-01-hello-world.md", "---\ntitle: \"Hello World!\"\n---\nText.") := by
  decide

/-- C1, as amended. On the end-to-end example processRow returns the file name
"2021-05-01-hello-world.md" and a body whose front matter holds two lines, one for the title
and one for the published column, which is mapped to the key date; every header line has a
space before its newline. -/
theorem C1_end_to_end :
    processRow
        [.int64 7, .string "Hello World!", .time ⟨1619827200, 0, 0, "UTC"⟩, .string "Text."]
        "title" "body" "published"
        [⟨"id", "-"⟩, ⟨"title", "title"⟩, ⟨"published", "date"⟩, ⟨"body", "-"⟩]
      = some ("2021-05-01-hello-world.md",
          "---\ntitle: \"Hello World!\" \ndate: 2021-05-01 00:00:00 +0000 UTC \n---\nText.") := by
  decide

/-- C2, counterexample. A row whose filename column is null comes back with an empty file
name and with a body that is not empty. -/
theorem C2_counterexample :
    processRow [.int64 7, .null] "title" "body" "published"
        [⟨"id", "id"⟩, ⟨"title", "title"⟩] = some ("", "---\nid: 7 \n---\n") ∧
    processRow [.int64 7, .null] "title" "body" "published"
        [⟨"id", "id"⟩, ⟨"title", "title"⟩] ≠ some ("", "") := by
  decide

/-- C2, as amended. When no mapping entry has the filename key as its source column, or the
value of every such entry is null, and no timestamp with a positive Unix() is captured from
the date column, processRow returns the empty file name together with the body made of the
header lines and the content of the other columns. -/
theorem C2_no_file_name (rows : List Value) (fk ck dk : String) (fm : List frontMatter)
    (hlen : rows.length = fm.length)
    (htyped : DatesTyped dk (fm.zip rows))
    (hnone : ∀ e ∈ fm.zip rows, e.1.DbColumn = fk → e.2 = Value.null)
    (hdate : (capturedDate fk ck dk (fm.zip rows)).Unix ≤ 0) :
    processRow rows fk ck dk fm =
      some ("", "---\n" ++ headerBlock (fm.zip rows) ++ "---\n" ++ contentText fk ck (fm.zip rows)) := by
  have hnil : valuesAt (fun k => decide (k = fk)) (fm.zip rows) = [] :=
    valuesAt_eq_nil _ _ (fun e he hp => hnone e he (by simpa using hp))
  have hstop : (fm.zip rows).findSome? (stops fk ck dk) = none :=
    findSome_stops_none fk ck dk _ htyped (by rw [hnil]; intro w hw; cases hw)
  rw [processRow_of_none rows fk ck dk fm hlen hstop, if_neg (not_lt.mpr hdate), hnil]
  rfl

/-- C2, witness: a row with a null title and no date column. -/
theorem C2_no_file_name_witness :
    processRow [.int64 7, .null] "title" "body" "published"
        [⟨"id", "id"⟩, ⟨"title", "title"⟩] =
      some ("", "---\nid: 7 \n---\n") :=
  C2_no_file_name [.int64 7, .null] "title" "body" "published"
    [⟨"id", "id"⟩, ⟨"title", "title"⟩] (by decide)
    ((datesTyped_iff _ _).2 (by decide)) (by decide) (by decide)

/-- C3. When the date values are timestamps or null, and some mapping entry whose source
column is the filename key has a value that is not null and whose text is empty after
trimming, processRow returns the pair of empty strings, whatever the other columns hold. -/
theorem C3_blank_file_name (rows : List Value) (fk ck dk : String) (fm : List frontMatter)
    (hlen : rows.length = fm.length)
    (htyped : DatesTyped dk (fm.zip rows))
    (hblank : ∃ e ∈ fm.zip rows,
      e.1.DbColumn = fk ∧ e.2 ≠ Value.null ∧ TrimSpace (Sprint e.2) = "") :
    processRow rows fk ck dk fm = some ("", "") := by
  obtain ⟨e, he, hk, hv, ht⟩ := hblank
  have hs : stops fk ck dk e = some (some ("", "")) :=
    stops_blank fk ck dk e ((isNil_eq_false_iff _).2 hv) hk
      (by simp [isBlank, ht])
  rw [processRow_zip rows fk ck dk fm hlen, rowLoop_total]
  cases hf : (fm.zip rows).findSome? (stops fk ck dk) with
  | none =>
    rw [List.findSome?_eq_none_iff] at hf
    rw [hf e he] at hs
    cases hs
  | some r =>
    obtain ⟨x, hx, hxs⟩ := List.exists_of_findSome?_eq_some hf
    cases r with
    | none =>
      obtain ⟨h1, h2, h3⟩ := stops_some_none fk ck dk x hxs
      rcases htyped x hx h1 with h | ⟨t, h⟩
      · exact absurd h h2
      · exact absurd h (h3 t)
    | some q =>
      rw [(stops_some_some fk ck dk x q hxs).1]

/-- C3, witness: the example of the specification with a title of three spaces. -/
theorem C3_blank_file_name_witness :
    processRow
        [.int64 7, .string "   ", .time ⟨1619827200, 0, 0, "UTC"⟩, .string "Text."]
        "title" "body" "published"
        [⟨"id", "-"⟩, ⟨"title", "title"⟩, ⟨"published", "date"⟩, ⟨"body", "-"⟩]
      = some ("", "") :=
  C3_blank_file_name
    [.int64 7, .string "   ", .time ⟨1619827200, 0, 0, "UTC"⟩, .string "Text."]
    "title" "body" "published"
    [⟨"id", "-"⟩, ⟨"title", "title"⟩, ⟨"published", "date"⟩, ⟨"body", "-"⟩]
    (by decide) ((datesTyped_iff _ _).2 (by decide))
    ⟨(⟨"title", "title"⟩, .string "   "), by decide, by decide, by decide, by decide⟩

/-- C4, counterexample. A timestamp half a second after the epoch is an instant strictly
after the epoch, and the file name has no date before it; and a timestamp in a date column
that is also the content column gives no date either. -/
theorem C4_counterexample :
    ((processRow [.string "Hi", .time ⟨0, 500000000, 0, "UTC"⟩] "title" "body" "published"
        [⟨"title", "title"⟩, ⟨"published", "-"⟩]).map Prod.fst = some "hi.md" ∧
      Time.Format ⟨0, 500000000, 0, "UTC"⟩ ++ "-" ++ "hi.md" = "1970-01-01-hi.md") ∧
    (processRow [.string "Hi", .time ⟨1619827200, 0, 0, "UTC"⟩] "title" "published" "published"
        [⟨"title", "title"⟩, ⟨"published", "-"⟩]).map Prod.fst = some "hi.md" := by
  decide

/-- C4, as amended. For a row whose date values are timestamps or null, whose filename
values are not blank and the last of them is v, with base file name b (the sanitized name
and ".md"), and for a date key that is neither the filename key nor the content key: if the
last date value that is not null is a timestamp d with d.Unix() > 0, that is at least one
whole second after the epoch, processRow returns the date of d, a hyphen and b; if d.Unix()
is at most 0, or every date value is null or the date column is not mapped, it returns b. -/
theorem C4_date_before_file_name (rows : List Value) (fk ck dk : String)
    (fm : List frontMatter) (v : Value)
    (hlen : rows.length = fm.length)
    (htyped : DatesTyped dk (fm.zip rows))
    (hv : (valuesAt (fun k => decide (k = fk)) (fm.zip rows)).getLast? = some v)
    (hnb : ∀ w ∈ valuesAt (fun k => decide (k = fk)) (fm.zip rows), isBlank w = false)
    (hfk : dk ≠ fk) (hck : dk ≠ ck) :
    (∀ d, (valuesAt (fun k => decide (k = dk)) (fm.zip rows)).getLast? = some (Value.time d) →
      0 < d.Unix →
      (processRow rows fk ck dk fm).map Prod.fst =
        some (d.Format ++ "-" ++ (sanitize (TrimSpace (Sprint v)) ++ ".md"))) ∧
    (∀ d, (valuesAt (fun k => decide (k = dk)) (fm.zip rows)).getLast? = some (Value.time d) →
      d.Unix ≤ 0 →
      (processRow rows fk ck dk fm).map Prod.fst =
        some (sanitize (TrimSpace (Sprint v)) ++ ".md")) ∧
    ((∀ e ∈ fm.zip rows, e.1.DbColumn = dk → e.2 = Value.null) →
      (processRow rows fk ck dk fm).map Prod.fst =
        some (sanitize (TrimSpace (Sprint v)) ++ ".md")) := by
  have hstop : (fm.zip rows).findSome? (stops fk ck dk) = none :=
    findSome_stops_none fk ck dk _ htyped hnb
  have hrun := processRow_of_none rows fk ck dk fm hlen hstop
  rw [capturedDate_eq fk ck dk _ hfk hck, lastOr_of_getLast _ _ _ v hv, fileNameOf_eq] at hrun
  refine ⟨?_, ?_, ?_⟩
  · intro d hd hpos
    rw [lastOr_of_getLast _ _ _ _ hd] at hrun
    rw [hrun]
    simp only [Value.asTime, Option.map_some', gt_iff_lt, hpos, if_true]
  · intro d hd hle
    rw [lastOr_of_getLast _ _ _ _ hd] at hrun
    rw [hrun]
    simp only [Value.asTime, Option.map_some', gt_iff_lt, not_lt.mpr hle, if_false]
  · intro hnull
    rw [valuesAt_eq_nil _ _ (fun e he hp => hnull e he (by simpa using hp))] at hrun
    rw [hrun]
    rfl

/-- C4, witness: the example of the specification, whose date is 2021-05-01. -/
theorem C4_date_before_file_name_witness :
    (processRow
        [.int64 7, .string "Hello World!", .time ⟨1619827200, 0, 0, "UTC"⟩, .string "Text."]
        "title" "body" "published"
        [⟨"id", "-"⟩, ⟨"title", "title"⟩, ⟨"published", "date"⟩, ⟨"body", "-"⟩]).map Prod.fst
      = some "2021-05-01-hello-world.md" :=
  (C4_date_before_file_name
    [.int64 7, .string "Hello World!", .time ⟨1619827200, 0, 0, "UTC"⟩, .string "Text."]
    "title" "body" "published"
    [⟨"id", "-"⟩, ⟨"title", "title"⟩, ⟨"published", "date"⟩, ⟨"body", "-"⟩]
    (.string "Hello World!")
    (by decide) ((datesTyped_iff _ _).2 (by decide)) (by decide) (by decide)
    (by decide) (by decide)).1 ⟨1619827200, 0, 0, "UTC"⟩ (by decide) (by decide)

/-- C5. For a row that gives no date before the file name (the date captured from it has a
Unix() that is not positive), whose filename values are not blank and the last of them is v,
the file name that processRow returns is s ++ ".md", where s is the trimmed text of v with
every space replaced by a hyphen, then lowercased, then without the characters that are not
ASCII letters, digits or hyphens; processRow does return it when the date values are
timestamps or null; and every character of s is a lowercase ASCII letter, a digit or a
hyphen, so none is a path separator, a dot or an uppercase letter. -/
theorem C5_file_name (rows : List Value) (fk ck dk : String) (fm : List frontMatter)
    (v : Value)
    (hlen : rows.length = fm.length)
    (hv : (valuesAt (fun k => decide (k = fk)) (fm.zip rows)).getLast? = some v)
    (hnb : ∀ w ∈ valuesAt (fun k => decide (k = fk)) (fm.zip rows), isBlank w = false)
    (hdate : (capturedDate fk ck dk (fm.zip rows)).Unix ≤ 0) :
    (∀ fn body, processRow rows fk ck dk fm = some (fn, body) →
      fn = specSanitize (TrimSpace (Sprint v)) ++ ".md") ∧
    (DatesTyped dk (fm.zip rows) →
      (processRow rows fk ck dk fm).map Prod.fst =
        some (specSanitize (TrimSpace (Sprint v)) ++ ".md")) ∧
    ∀ c ∈ (specSanitize (TrimSpace (Sprint v))).data,
      isLowerAlnumHyphen c = true ∧ c ≠ '/' ∧ c ≠ '.' ∧ ¬ (65 ≤ c.toNat ∧ c.toNat ≤ 90) := by
  have hname : ∀ hstop : (fm.zip rows).findSome? (stops fk ck dk) = none,
      (processRow rows fk ck dk fm).map Prod.fst =
        some (specSanitize (TrimSpace (Sprint v)) ++ ".md") := by
    intro hstop
    rw [processRow_of_none rows fk ck dk fm hlen hstop, if_neg (not_lt.mpr hdate),
      lastOr_of_getLast _ _ _ v hv, fileNameOf_eq, sanitize_eq_specSanitize]
    rfl
  refine ⟨?_, ?_, ?_⟩
  · intro fn body hrun
    have h := hname (processRow_stops_none_of_nonblank rows fk ck dk fm (fn, body) hrun hnb)
    rw [hrun] at h
    exact Option.some.inj h
  · intro htyped
    exact hname (findSome_stops_none fk ck dk _ htyped hnb)
  · intro c hc
    have hl := specSanitize_chars _ c hc
    refine ⟨hl, ?_, ?_, ?_⟩
    · intro h
      subst h
      revert hl
      decide
    · intro h
      subst h
      revert hl
      decide
    · simp only [isLowerAlnumHyphen, Bool.or_eq_true, Bool.and_eq_true,
        decide_eq_true_eq, beq_iff_eq] at hl
      omega

/-- C5, witness: a title with capitals, spaces, a dot and a slash, and no date. -/
theorem C5_file_name_witness :
    (processRow [.string "  Notes v1.2 / Draft  ", .null] "title" "body" "published"
        [⟨"title", "title"⟩, ⟨"published", "date"⟩]).map Prod.fst
      = some "notes-v12--draft.md" :=
  (C5_file_name [.string "  Notes v1.2 / Draft  ", .null] "title" "body" "published"
    [⟨"title", "title"⟩, ⟨"published", "date"⟩] (.string "  Notes v1.2 / Draft  ")
    (by decide) (by decide) (by decide) (by decide)).2.1 ((datesTyped_iff _ _).2 (by decide))

/-- C6. The file name pipeline of processRow without the suffix, applied twice, gives the
same string as applied once; and the pipeline is the one the claim describes: spaces to
hyphens, lower case, then only ASCII letters, digits and hyphens kept. -/
theorem C6_sanitize_idempotent (x : String) :
    sanitize (sanitize x) = sanitize x ∧ sanitize x = specSanitize x :=
  ⟨sanitize_idem x, sanitize_eq_specSanitize x⟩

/-- C7. For a row that is not skipped (performMigration finds the file name that processRow
returns not empty) and
a mapping entry whose output key k is not "-" and whose value is the text t, the body holds,
between the header lines of the entries before and after it, the line made of k, a colon and
a space, a double quote, t with every double quote replaced by a backslash and a double
quote, a closing double quote, a space and a newline; in the replaced text a backslash
stands before every double quote. -/
theorem C7_quoted_header (rows : List Value) (fk ck dk : String) (fm : List frontMatter)
    (fn body col k t : String)
    (hrun : processRow rows fk ck dk fm = some (fn, body)) (hfn : skipsRow fn = false)
    (hmem : (⟨col, k⟩, Value.string t) ∈ fm.zip rows) (hk : k ≠ Ignore) :
    (∃ l1 l2 content, fm.zip rows = l1 ++ (⟨col, k⟩, Value.string t) :: l2 ∧
      body = "---\n" ++ headerBlock l1 ++
        (k ++ ": " ++ ("\"" ++ Replace t '\"' "\\\"" ++ "\"") ++ " \n") ++
        headerBlock l2 ++ "---\n" ++ content) ∧
    ∀ before after, (Replace t '\"' "\\\"").data = before ++ '\"' :: after →
      ∃ b1, before = b1 ++ ['\\'] := by
  refine ⟨?_, replaceChars_quote t.data⟩
  have hstop := processRow_stops_none rows fk ck dk fm (fn, body) hrun
    (fun h => skipsRow_eq_false fn hfn (congrArg Prod.fst h))
  have hbody := processRow_body rows fk ck dk fm fn body hrun hstop
  obtain ⟨l1, l2, hsplit⟩ := List.append_of_mem hmem
  refine ⟨l1, l2, contentText fk ck (fm.zip rows), hsplit, ?_⟩
  have hemit : emitsHeader (⟨col, k⟩, Value.string t) = true := by
    simp [emitsHeader, Value.isNil, hk]
  rw [hbody, hsplit, headerBlock_split, hemit, if_pos rfl]
  simp only [headerLine, display, String.append_assoc]

/-- C7, witness: a title that holds two double quotes. -/
theorem C7_quoted_header_witness :
    (∃ l1 l2 content,
      [(⟨"title", "title"⟩, Value.string "Say \"hi\""), (⟨"body", "-"⟩, Value.string "Text.")]
        = l1 ++ (⟨"title", "title"⟩, Value.string "Say \"hi\"") :: l2 ∧
      "---\ntitle: \"Say \\\"hi\\\"\" \n---\nText." = "---\n" ++ headerBlock l1 ++
        ("title" ++ ": " ++ ("\"" ++ Replace "Say \"hi\"" '\"' "\\\"" ++ "\"") ++ " \n") ++
        headerBlock l2 ++ "---\n" ++ content) ∧
    ∀ before after, (Replace "Say \"hi\"" '\"' "\\\"").data = before ++ '\"' :: after →
      ∃ b1, before = b1 ++ ['\\'] :=
  C7_quoted_header [.string "Say \"hi\"", .string "Text."] "title" "body" "published"
    [⟨"title", "title"⟩, ⟨"body", "-"⟩] "say-hi.md" "---\ntitle: \"Say \\\"hi\\\"\" \n---\nText."
    "title" "title" "Say \"hi\"" (by decide) (by decide) (by decide) (by decide)

/-- C8. Changing the output key of a mapping entry from any key k to "-" neither adds nor
removes a panic, and leaves the pair of empty strings of a blank file name as it is; on
every other row it leaves the file name, date included, and the trailing content unchanged,
and takes the header line of that entry, and nothing else, out of the body: under "-" the
entry has no header line. -/
theorem C8_ignored_key (fk ck dk : String) (fpre fpost : List frontMatter)
    (rpre rpost : List Value) (col k : String) (v : Value)
    (hpre : rpre.length = fpre.length) :
    (processRow (rpre ++ v :: rpost) fk ck dk (fpre ++ ⟨col, k⟩ :: fpost) = none ↔
      processRow (rpre ++ v :: rpost) fk ck dk (fpre ++ ⟨col, Ignore⟩ :: fpost) = none) ∧
    ∀ fn body,
      processRow (rpre ++ v :: rpost) fk ck dk (fpre ++ ⟨col, k⟩ :: fpost) = some (fn, body) →
      (fn = "" ∧ body = "" ∧
        processRow (rpre ++ v :: rpost) fk ck dk (fpre ++ ⟨col, Ignore⟩ :: fpost) =
          some ("", "")) ∨
      ∃ content,
        body = "---\n" ++ headerBlock (fpre.zip rpre) ++
          (if v = Value.null ∨ k = Ignore then "" else k ++ ": " ++ display v ++ " \n") ++
          headerBlock (fpost.zip rpost) ++ "---\n" ++ content ∧
        processRow (rpre ++ v :: rpost) fk ck dk (fpre ++ ⟨col, Ignore⟩ :: fpost) =
          some (fn, "---\n" ++ headerBlock (fpre.zip rpre) ++ headerBlock (fpost.zip rpost) ++
            "---\n" ++ content) := by
  have hline : (if emitsHeader (⟨col, k⟩, v) then headerLine (⟨col, k⟩, v) else "") =
      (if v = Value.null ∨ k = Ignore then "" else k ++ ": " ++ display v ++ " \n") := by
    by_cases hk : k = Ignore
    · simp [emitsHeader, hk]
    · cases v <;> simp [emitsHeader, Value.isNil, hk, headerLine]
  have hnoline : (if emitsHeader (⟨col, Ignore⟩, v) then headerLine (⟨col, Ignore⟩, v) else "")
      = "" := by
    simp [emitsHeader]
  by_cases hlen : (rpre ++ v :: rpost).length = (fpre ++ ⟨col, k⟩ :: fpost).length
  · have hlen2 : (rpre ++ v :: rpost).length = (fpre ++ ⟨col, Ignore⟩ :: fpost).length := by
      simpa using hlen
    rw [processRow_zip _ _ _ _ _ hlen, processRow_zip _ _ _ _ _ hlen2,
      zip_split _ _ _ _ _ _ hpre, zip_split _ _ _ _ _ _ hpre, rowLoop_total, rowLoop_total,
      findSome_stops_key fk ck dk col Ignore k v]
    cases hf : (fpre.zip rpre ++ (⟨col, k⟩, v) :: fpost.zip rpost).findSome? (stops fk ck dk) with
    | some r =>
      dsimp only
      refine ⟨Iff.rfl, ?_⟩
      intro fn body hr
      obtain ⟨e, _, he⟩ := List.exists_of_findSome?_eq_some hf
      rw [hr] at he
      have hpair := (stops_some_some fk ck dk e (fn, body) he).1
      left
      exact ⟨congrArg Prod.fst hpair, congrArg Prod.snd hpair, by rw [hr, hpair]⟩
    | none =>
      dsimp only
      refine ⟨⟨fun h => Option.noConfusion h, fun h => Option.noConfusion h⟩, ?_⟩
      intro fn body hr
      right
      refine ⟨contentText fk ck (fpre.zip rpre ++ (⟨col, k⟩, v) :: fpost.zip rpost), ?_, ?_⟩
      · have hb := congrArg Prod.snd (Option.some.inj hr)
        simp only [finish, captured, headerBlock_split, hline, String.empty_append] at hb
        rw [← hb]
        simp only [contentText, String.append_assoc]
      · have hfn := congrArg Prod.fst (Option.some.inj hr)
        simp only [finish, captured] at hfn
        rw [← hfn]
        simp only [finish, captured, headerBlock_split, hnoline, String.empty_append,
          String.append_empty, contentText, valuesAt_key _ col Ignore k, String.append_assoc]
  · have hlen2 : ¬ (rpre ++ v :: rpost).length = (fpre ++ ⟨col, Ignore⟩ :: fpost).length := by
      simpa using hlen
    unfold processRow
    rw [if_neg hlen, if_neg hlen2]
    exact ⟨Iff.rfl, fun fn body h => by cases h⟩

/-- C8, witness: the key of the date column of the example goes from date to "-". -/
theorem C8_ignored_key_witness :
    ("2021-05-01-hello-world.md" = "" ∧
      "---\ntitle: \"Hello World!\" \ndate: 2021-05-01 00:00:00 +0000 UTC \n---\nText." = "" ∧
      processRow
          ([.int64 7, .string "Hello World!"] ++
            .time ⟨1619827200, 0, 0, "UTC"⟩ :: [.string "Text."])
          "title" "body" "published"
          ([⟨"id", "-"⟩, ⟨"title", "title"⟩] ++ ⟨"published", Ignore⟩ :: [⟨"body", "-"⟩]) =
        some ("", "")) ∨
    ∃ content,
      "---\ntitle: \"Hello World!\" \ndate: 2021-05-01 00:00:00 +0000 UTC \n---\nText." =
        "---\n" ++
          headerBlock ([⟨"id", "-"⟩, ⟨"title", "title"⟩].zip [.int64 7, .string "Hello World!"])
          ++ (if Value.time ⟨1619827200, 0, 0, "UTC"⟩ = Value.null ∨ "date" = Ignore then ""
              else "date" ++ ": " ++ display (.time ⟨1619827200, 0, 0, "UTC"⟩) ++ " \n") ++
          headerBlock ([⟨"body", "-"⟩].zip [.string "Text."]) ++ "---\n" ++ content ∧
      processRow
          ([.int64 7, .string "Hello World!"] ++
            .time ⟨1619827200, 0, 0, "UTC"⟩ :: [.string "Text."])
          "title" "body" "published"
          ([⟨"id", "-"⟩, ⟨"title", "title"⟩] ++ ⟨"published", Ignore⟩ :: [⟨"body", "-"⟩]) =
        some ("2021-05-01-hello-world.md",
          "---\n" ++
            headerBlock ([⟨"id", "-"⟩, ⟨"title", "title"⟩].zip [.int64 7, .string "Hello World!"])
            ++ headerBlock ([⟨"body", "-"⟩].zip [.string "Text."]) ++ "---\n" ++ content) :=
  (C8_ignored_key "title" "body" "published" [⟨"id", "-"⟩, ⟨"title", "title"⟩] [⟨"body", "-"⟩]
    [.int64 7, .string "Hello World!"] [.string "Text."] "published" "date"
    (.time ⟨1619827200, 0, 0, "UTC"⟩) (by decide)).2
    "2021-05-01-hello-world.md"
    "---\ntitle: \"Hello World!\" \ndate: 2021-05-01 00:00:00 +0000 UTC \n---\nText."
    (by decide)

/-- C9, counterexample. With the content key equal to the filename key the content column
holds the text Hi, which is not null, and the body ends after the front matter: the trailing
content is empty, not Hi. -/
theorem C9_counterexample :
    processRow [.string "Hi"] "title" "title" "published" [⟨"title", "title"⟩] =
      some ("hi.md", "---\ntitle: \"Hi\" \n---\n") ∧
    processRow [.string "Hi"] "title" "title" "published" [⟨"title", "title"⟩] ≠
      some ("hi.md", "---\ntitle: \"Hi\" \n---\n" ++ "Hi") := by
  decide

/-- C9, as amended. For a row with no blank filename value, the body that processRow returns
is "---\n" ++ H ++ "---\n" ++ C: H is the concatenation, in mapping order, of one header line
for each entry whose value is not null and whose output key is not "-", each line made of
the output key, ": ", the displayed value, a space and a newline; C is the empty string when
the content key is the filename key, and else the plain text of the last value that is not
null in a content column, or the empty string when there is none. When the date values are
timestamps or null processRow does return such a body. -/
theorem C9_body (rows : List Value) (fk ck dk : String) (fm : List frontMatter)
    (hlen : rows.length = fm.length)
    (hnb : ∀ w ∈ valuesAt (fun k => decide (k = fk)) (fm.zip rows), isBlank w = false) :
    (∀ fn body, processRow rows fk ck dk fm = some (fn, body) →
      body = "---\n" ++
        concat (((fm.zip rows).filter
          (fun e => !e.2.isNil && !decide (e.1.JekyllKey = "-"))).map
          (fun e => e.1.JekyllKey ++ ": " ++ display e.2 ++ " \n")) ++
        "---\n" ++
        (if ck = fk then ""
         else lastOr Sprint (valuesAt (fun k => decide (k = ck)) (fm.zip rows)) "")) ∧
    (DatesTyped dk (fm.zip rows) → ∃ fn body, processRow rows fk ck dk fm = some (fn, body)) := by
  constructor
  · intro fn body hrun
    have hstop := processRow_stops_none_of_nonblank rows fk ck dk fm (fn, body) hrun hnb
    rw [processRow_body rows fk ck dk fm fn body hrun hstop, contentText_eq]
    rfl
  · intro htyped
    have hstop := findSome_stops_none fk ck dk _ htyped hnb
    exact ⟨_, _, processRow_of_none rows fk ck dk fm hlen hstop⟩

/-- C9, witness: the example of the specification. -/
theorem C9_body_witness :
    "---\ntitle: \"Hello World!\" \ndate: 2021-05-01 00:00:00 +0000 UTC \n---\nText." =
      "---\n" ++
        concat (((([⟨"id", "-"⟩, ⟨"title", "title"⟩, ⟨"published", "date"⟩, ⟨"body", "-"⟩] :
            List frontMatter).zip
            [Value.int64 7, .string "Hello World!", .time ⟨1619827200, 0, 0, "UTC"⟩,
              .string "Text."]).filter
          (fun e => !e.2.isNil && !decide (e.1.JekyllKey = "-"))).map
          (fun e => e.1.JekyllKey ++ ": " ++ display e.2 ++ " \n")) ++
        "---\n" ++
        (if "body" = "title" then ""
         else lastOr Sprint (valuesAt (fun k => decide (k = "body"))
          (([⟨"id", "-"⟩, ⟨"title", "title"⟩, ⟨"published", "date"⟩, ⟨"body", "-"⟩] :
            List frontMatter).zip
            [Value.int64 7, .string "Hello World!", .time ⟨1619827200, 0, 0, "UTC"⟩,
              .string "Text."])) "") :=
  (C9_body
    [.int64 7, .string "Hello World!", .time ⟨1619827200, 0, 0, "UTC"⟩, .string "Text."]
    "title" "body" "published"
    [⟨"id", "-"⟩, ⟨"title", "title"⟩, ⟨"published", "date"⟩, ⟨"body", "-"⟩]
    (by decide) (by decide)).1 "2021-05-01-hello-world.md"
    "---\ntitle: \"Hello World!\" \ndate: 2021-05-01 00:00:00 +0000 UTC \n---\nText."
    (by decide)

/-- C10, counterexample. The content column body is mapped to the key content, and the body
of the document holds a header line for it before the closing of the front matter. -/
theorem C10_counterexample :
    processRow [.string "Hi", .string "Text."] "title" "body" "published"
        [⟨"title", "title"⟩, ⟨"body", "content"⟩] =
      some ("hi.md", "---\ntitle: \"Hi\" \ncontent: \"Text.\" \n---\nText.") ∧
    processRow [.string "Hi", .string "Text."] "title" "body" "published"
        [⟨"title", "title"⟩, ⟨"body", "content"⟩] ≠
      some ("hi.md", "---\ntitle: \"Hi\" \n---\nText.") := by
  decide

/-- C10, as amended. For a row that is not skipped, the value v, not null, of the last
mapping entry whose source column is the content key, the content key not being the
filename key, is the trailing content after the closing "---\n" as plain text without
quotes; and the entry has a header line, among the header lines of the other entries,
exactly when its output key is not "-". -/
theorem C10_content_entry (fk ck dk : String) (fpre fpost : List frontMatter)
    (rpre rpost : List Value) (k : String) (v : Value) (fn body : String)
    (hpre : rpre.length = fpre.length)
    (hrun : processRow (rpre ++ v :: rpost) fk ck dk (fpre ++ ⟨ck, k⟩ :: fpost) =
      some (fn, body))
    (hfn : skipsRow fn = false) (hck : ck ≠ fk) (hv : v ≠ Value.null)
    (hlast : ∀ e ∈ fpost.zip rpost, e.1.DbColumn = ck → e.2 = Value.null) :
    body = "---\n" ++ headerBlock (fpre.zip rpre) ++
      (if k = Ignore then "" else k ++ ": " ++ display v ++ " \n") ++
      headerBlock (fpost.zip rpost) ++ "---\n" ++ Sprint v := by
  have hstop := processRow_stops_none _ fk ck dk _ (fn, body) hrun
    (fun h => skipsRow_eq_false fn hfn (congrArg Prod.fst h))
  have hbody := processRow_body _ fk ck dk _ fn body hrun hstop
  have hnil : v.isNil = false := (isNil_eq_false_iff v).2 hv
  have hline : (if emitsHeader (⟨ck, k⟩, v) then headerLine (⟨ck, k⟩, v) else "") =
      (if k = Ignore then "" else k ++ ": " ++ display v ++ " \n") := by
    by_cases hk : k = Ignore
    · simp [emitsHeader, hk]
    · simp [emitsHeader, hnil, hk, headerLine]
  have hcontent : contentText fk ck (fpre.zip rpre ++ (⟨ck, k⟩, v) :: fpost.zip rpost) =
      Sprint v := by
    rw [contentText_eq, if_neg hck, valuesAt_append, valuesAt_cons,
      valuesAt_eq_nil _ (fpost.zip rpost) (fun e he hp => hlast e he (by simpa using hp))]
    simp [hnil, lastOr]
  rw [hbody, zip_split _ _ _ _ _ _ hpre, headerBlock_split, hline, hcontent]
  simp only [String.append_assoc]

/-- C10, witness: the content column mapped to the key content. -/
theorem C10_content_entry_witness :
    "---\ntitle: \"Hi\" \ncontent: \"Text.\" \n---\nText." =
      "---\n" ++ headerBlock ([⟨"title", "title"⟩].zip [Value.string "Hi"]) ++
        (if "content" = Ignore then "" else "content" ++ ": " ++ display (.string "Text.") ++ " \n")
        ++ headerBlock (([] : List frontMatter).zip ([] : List Value)) ++ "---\n" ++
        Sprint (.string "Text.") :=
  C10_content_entry "title" "body" "published" [⟨"title", "title"⟩] [] [.string "Hi"] []
    "content" (.string "Text.") "hi.md" "---\ntitle: \"Hi\" \ncontent: \"Text.\" \n---\nText."
    (by decide) (by decide) (by decide) (by decide) (by decide) (by decide)

end Migrate
